import Mathlib

/-!
Verification development for the dynamic NAMASTE-to-ICD-11 concept-mapping
engine implemented in `app2.py` of the SIH-Demo repository.

The shallow embedding below translates the Python source into Lean:

* Python strings are `String` / `List Char`; `str.lower()` is modelled
  character-wise (`lowerChars`), an ASCII model of Python's Unicode rules.
* Python floats are modelled as exact rationals (`ℚ`): every confidence
  computation of the engine is a short arithmetic expression whose
  specification-level properties (bounds, ordering) concern the ideal
  real-number values.
* `difflib.SequenceMatcher` (used both by `SequenceMatcher(...).ratio()` and,
  via fuzzywuzzy's pure-Python fallback, by `fuzz.ratio`) is embedded in full:
  the `find_longest_match` dynamic programme with its b2j index, the
  non-junk extension loops, and the recursive matching-blocks total.  The
  junk/autojunk heuristic (which only activates for strings of length ≥ 200)
  is not modelled; the two junk extension loops it drives are no-ops when no
  character is junk.
* NLTK is an optional dependency of the code; every code path has an explicit
  regex fallback (`simple_tokenize`, `fallback_stop_words`) which the code's
  own comments declare behaviourally equivalent.  The embedding models the
  fallback (NLTK-unavailable) mode, and keeps the stemmer abstract as an
  `Option (String → String)` parameter where the code consults it.
* `list(set(...))` in Python returns the set's elements in an unspecified
  order; the embedding determinises it as `pyListSet` (first occurrence
  kept, original order).  No claim settled here depends on that order.
* The external WHO ICD-11 lookup is a collaborator: it is a parameter
  `api : String → Option String → LookupOutcome` covering transport failure
  (timeouts, missing auth token) and arbitrary HTTP responses.
-/

namespace SIH

/-! ## Character and text helpers (ASCII model of Python `re` / `str` ops) -/

/-- Python regex word character `\w` (ASCII model): letter, digit or underscore. -/
def isWordChar (c : Char) : Bool := c.isAlphanum || c = '_'

/-- Model of Python `str.lower()` as a list of characters (ASCII model). -/
def lowerChars (s : String) : List Char := s.data.map Char.toLower

/-- Model of `re.sub(r'[^\w\s]', ' ', text)`: replace every character that is
neither a word character nor whitespace by a space. -/
def cleanPunct (cs : List Char) : List Char :=
  cs.map (fun c => if isWordChar c || c.isWhitespace then c else ' ')

/-- Model of `re.split` on a single-character class: split a character list at
every character satisfying `p`, keeping empty pieces (as Python does). -/
def splitBy (p : Char → Bool) : List Char → List (List Char)
  | [] => [[]]
  | c :: rest =>
    let r := splitBy p rest
    if p c then [] :: r
    else
      match r with
      | [] => [[c]]
      | t :: ts => (c :: t) :: ts

/-- The sentence-level delimiters of `re.split(r'[.;,/\-]', text)`. -/
def isDelim (c : Char) : Bool := c = '.' || c = ';' || c = ',' || c = '/' || c = '-'

/-- Maximal runs of word characters (the `\w+` chunks of a string). -/
def wordRuns (cs : List Char) : List (List Char) :=
  (splitBy (fun c => !isWordChar c) cs).filter (fun r => !r.isEmpty)

/-- Model of `simple_tokenize` (app2.py lines 137-141):
`re.findall(r'\b[a-zA-Z]{2,}\b', text.lower())`.  A match of that pattern is
exactly a maximal `\w+` run consisting solely of letters with length ≥ 2. -/
def simple_tokenize (cs : List Char) : List String :=
  ((wordRuns (cs.map Char.toLower)).filter
      (fun r => r.all Char.isAlpha && decide (2 ≤ r.length))).map (fun r => ⟨r⟩)

/-- Python `str.strip()`: drop leading and trailing whitespace. -/
def trimWS (cs : List Char) : List Char :=
  ((cs.dropWhile Char.isWhitespace).reverse.dropWhile Char.isWhitespace).reverse

/-- Scan for the first `]` or `)` (the end of a non-greedy `[\[\(].*?[\]\)]`
match); `.` does not cross a newline, so fail upon one.  Returns the
characters after the closer. -/
def findCloser : List Char → Option (List Char)
  | [] => none
  | c :: rest =>
    if c = ']' || c = ')' then some rest
    else if c = '\n' then none
    else findCloser rest

theorem findCloser_length : ∀ {l l' : List Char}, findCloser l = some l' → l'.length < l.length := by
  intro l
  induction l with
  | nil => intro l' h; simp [findCloser] at h
  | cons c rest ih =>
    intro l' h
    simp only [findCloser] at h
    split at h
    · cases h; simp
    · split at h
      · cases h
      · exact Nat.lt_trans (ih h) (by simp)

/-- Fuelled worker for `removeBrackets`; each step strictly shortens the list
(`findCloser_length`), so fuel `cs.length` always suffices.  Structural
recursion on the fuel keeps the definition kernel-reducible. -/
def removeBracketsFuel : Nat → List Char → List Char
  | 0, cs => cs
  | fuel + 1, cs =>
    match cs with
    | [] => []
    | c :: rest =>
      if c = '[' || c = '(' then
        match findCloser rest with
        | some rest' => removeBracketsFuel fuel rest'
        | none => c :: removeBracketsFuel fuel rest
      else c :: removeBracketsFuel fuel rest

/-- Model of `re.sub(r'[\[\(].*?[\]\)]', '', text)`: delete every non-greedy
bracketed/parenthesised span (opener to nearest closer on the same line). -/
def removeBrackets (cs : List Char) : List Char := removeBracketsFuel cs.length cs

/-- Character-level `str.endswith` (Python slices strings by characters). -/
def strEndsWith (s suffix : String) : Bool := suffix.data.isSuffixOf s.data

/-! ## difflib.SequenceMatcher (no-junk model)

`calculate_semantic_similarity` computes
`SequenceMatcher(None, s1, s2).ratio()` and `fuzz.ratio(s1, s2)`;
fuzzywuzzy's pure-Python path is `int(round(100 * SequenceMatcher(None, s1,
s2).ratio()))`.  `ratio` is `2*M/T` where `M` is the total size of the
matching blocks found by the recursive greedy `find_longest_match` and `T`
the combined length. -/

/-- Default character for out-of-range reads (never reached on in-range
indices, which is all the lemmas use). -/
def cNul : Char := Char.ofNat 0

/-- The inner iteration of `find_longest_match`: the indices `j` of `b` inside
`[blo, bhi)` holding character `c`, in increasing order (Python's
`b2j.get(a[i], [])` restricted by the `continue`/`break` guards). -/
def jsFor (b : List Char) (blo bhi : Nat) (c : Char) : List Nat :=
  (List.range' blo (bhi - blo)).filter (fun j => decide (b.getD j cNul = c))

/-- Run length ending at column `j` of the current row, given the previous
row's `j2len` (`j2len.get(j-1, 0) + 1`; Python's `j-1` at `j = 0` is `-1`,
absent from the dict). -/
def runLen (j2len : Nat → Nat) (j : Nat) : Nat :=
  (if j = 0 then 0 else j2len (j - 1)) + 1

/-- One row's best-update loop: `for j in b2j[a[i]]: if k > bestsize: ...`. -/
def innerFold (i : Nat) (j2len : Nat → Nat) : List Nat → Nat × Nat × Nat → Nat × Nat × Nat
  | [], best => best
  | j :: js, best =>
    let k := runLen j2len j
    innerFold i j2len js (if best.2.2 < k then (i + 1 - k, j + 1 - k, k) else best)

/-- The next row's `j2len` dictionary (`newj2len[j] = j2len.get(j-1,0)+1`
for exactly the visited `j`). -/
def newJ2len (b : List Char) (blo bhi : Nat) (c : Char) (j2len : Nat → Nat) : Nat → Nat :=
  fun j => if j ∈ jsFor b blo bhi c then runLen j2len j else 0

/-- The outer `for i in range(alo, ahi)` loop of `find_longest_match`,
threading the `j2len` dictionary and the best block. -/
def rowsFold (a b : List Char) (blo bhi : Nat) :
    List Nat → (Nat → Nat) × (Nat × Nat × Nat) → (Nat → Nat) × (Nat × Nat × Nat)
  | [], st => st
  | i :: is, st =>
    let c := a.getD i cNul
    let best := innerFold i st.1 (jsFor b blo bhi c) st.2
    rowsFold a b blo bhi is (newJ2len b blo bhi c st.1, best)

/-- Backward extension loop: `while besti > alo and bestj > blo and
a[besti-1] == b[bestj-1]` (the non-junk loop; the junk loops are no-ops with
no junk).  Fuelled by `besti`, which strictly decreases. -/
def extendBack (a b : List Char) (alo blo : Nat) : Nat → Nat × Nat × Nat → Nat × Nat × Nat
  | 0, t => t
  | fuel + 1, (i, j, k) =>
    if alo < i ∧ blo < j ∧ a.getD (i - 1) cNul = b.getD (j - 1) cNul then
      extendBack a b alo blo fuel (i - 1, j - 1, k + 1)
    else (i, j, k)

/-- Forward extension loop: `while besti+bestsize < ahi and bestj+bestsize <
bhi and a[besti+bestsize] == b[bestj+bestsize]`. -/
def extendFwd (a b : List Char) (ahi bhi : Nat) : Nat → Nat × Nat × Nat → Nat × Nat × Nat
  | 0, t => t
  | fuel + 1, (i, j, k) =>
    if i + k < ahi ∧ j + k < bhi ∧ a.getD (i + k) cNul = b.getD (j + k) cNul then
      extendFwd a b ahi bhi fuel (i, j, k + 1)
    else (i, j, k)

/-- `find_longest_match(alo, ahi, blo, bhi)` (difflib, no junk). -/
def findLongestMatch (a b : List Char) (alo ahi blo bhi : Nat) : Nat × Nat × Nat :=
  let dp := (rowsFold a b blo bhi (List.range' alo (ahi - alo)) (fun _ => 0, (alo, blo, 0))).2
  let e1 := extendBack a b alo blo dp.1 dp
  extendFwd a b ahi bhi (ahi - (e1.1 + e1.2.2)) e1

/-- Total size of the matching blocks of `get_matching_blocks` over a range:
take the longest match, recurse on both sides.  Each level strictly shrinks
`(ahi-alo) + (bhi-blo)`, so fuel `|a| + |b| + 1` always suffices at the top
level. -/
def matchesTotalFuel (a b : List Char) : Nat → Nat → Nat → Nat → Nat → Nat
  | 0, _, _, _, _ => 0
  | fuel + 1, alo, ahi, blo, bhi =>
    let m := findLongestMatch a b alo ahi blo bhi
    if m.2.2 = 0 then 0
    else
      m.2.2 + matchesTotalFuel a b fuel alo m.1 blo m.2.1 +
        matchesTotalFuel a b fuel (m.1 + m.2.2) ahi (m.2.1 + m.2.2) bhi

/-- `sum(size for _, _, size in get_matching_blocks())`. -/
def matchesTotal (a b : List Char) : Nat :=
  matchesTotalFuel a b (a.length + b.length + 1) 0 a.length 0 b.length

/-- `SequenceMatcher(None, a, b).ratio() = 2*M/T` (and `1.0` when `T = 0`). -/
def ratioQ (a b : List Char) : ℚ :=
  if a.length + b.length = 0 then 1
  else 2 * (matchesTotal a b : ℚ) / ((a.length : ℚ) + (b.length : ℚ))

/-- Python's `round` (banker's rounding, ties to even), as used by
fuzzywuzzy's `int(round(...))`. -/
def pyRound (q : ℚ) : ℤ :=
  let f := ⌊q⌋
  let frac := q - (f : ℚ)
  if frac < 1 / 2 then f
  else if (1 : ℚ) / 2 < frac then f + 1
  else if f % 2 = 0 then f else f + 1

-- Sanity checks on small concrete inputs
example : matchesTotal "pain".data "pain".data = 4 := by decide
example : matchesTotal "abc".data "xbx".data = 1 := by decide
example : matchesTotal "ab".data "ba".data = 1 := by decide
example : ratioQ "flu".data "flu".data = 1 := by
  have h : matchesTotal "flu".data "flu".data = 3 := by decide
  have hl : "flu".data.length = 3 := by decide
  norm_num [ratioQ, h, hl]
example : pyRound (5 / 2 : ℚ) = 2 := by norm_num [pyRound]
example : pyRound (7 / 2 : ℚ) = 4 := by norm_num [pyRound]
example : pyRound (100 : ℚ) = 100 := by norm_num [pyRound]

/-- Determinisation of Python `list(set(xs))` for strings: keep the first
occurrence of each element, in input order.  Python's set iteration order is
unspecified; no property settled here depends on the order, only on
membership and uniqueness. -/
def pyListSet : List String → List String
  | [] => []
  | x :: xs => x :: (pyListSet xs).filter (fun y => decide (y ≠ x))

theorem mem_pyListSet {a : String} : ∀ {l : List String}, a ∈ pyListSet l ↔ a ∈ l := by
  intro l
  induction l with
  | nil => simp [pyListSet]
  | cons x xs ih =>
    simp only [pyListSet, List.mem_cons, List.mem_filter]
    constructor
    · rintro (rfl | ⟨hmem, _⟩)
      · exact Or.inl rfl
      · exact Or.inr (ih.mp hmem)
    · rintro (rfl | hmem)
      · exact Or.inl rfl
      · by_cases hax : a = x
        · exact Or.inl hax
        · exact Or.inr ⟨ih.mpr hmem, by simp [hax]⟩

theorem nodup_pyListSet : ∀ (l : List String), (pyListSet l).Nodup := by
  intro l
  induction l with
  | nil => simp [pyListSet]
  | cons x xs ih =>
    rw [pyListSet, List.nodup_cons]
    refine ⟨fun hmem => ?_, ih.filter _⟩
    have := (List.mem_filter.mp hmem).2
    simp at this

/-! ## The similarity scorer (`calculate_semantic_similarity`, lines 288-344)

Modelled in the fallback-tokenization mode: token sets come from
`re.findall(r'\b[a-zA-Z]{2,}\b', text_clean)` with the 20-word inline
stop-word list of lines 318-321.  A Python `set` of strings is modelled as a
deduplicated list (`pyListSet`); only its membership and cardinality are
used. -/

/-- The inline fallback stop-word list of `calculate_semantic_similarity`. -/
def scorerStopWords : List String :=
  ["the", "a", "an", "and", "or", "but", "in", "on", "at", "to", "for",
   "of", "with", "by", "from", "as", "is", "was", "are", "were", "be"]

/-- `set(re.findall(r'\b[a-zA-Z]{2,}\b', text_clean)) - stop_words` for
`text_clean = re.sub(r'[^\w\s]', ' ', text.lower())`. -/
def scorerTokens (t : String) : List String :=
  (pyListSet (simple_tokenize (cleanPunct (lowerChars t)))).filter
    (fun w => decide (w ∉ scorerStopWords))

/-- `calculate_semantic_similarity(text1, text2)` (app2.py lines 288-344):
`0.4 * jaccard + 0.3 * fuzz.ratio/100 + 0.3 * SequenceMatcher.ratio`,
with `0` for an empty input string and a `0` Jaccard term when either token
set is empty. -/
def calculate_semantic_similarity (text1 text2 : String) : ℚ :=
  if text1 = "" ∨ text2 = "" then 0
  else
    let tokens1 := scorerTokens text1
    let tokens2 := scorerTokens text2
    let inter := tokens1.filter (fun w => decide (w ∈ tokens2))
    let union := tokens1 ++ tokens2.filter (fun w => decide (w ∉ tokens1))
    let jaccard_sim : ℚ :=
      if tokens1 = [] ∨ tokens2 = [] then 0
      else (inter.length : ℚ) / (union.length : ℚ)
    let fuzz_sim : ℚ := (pyRound (100 * ratioQ (lowerChars text1) (lowerChars text2)) : ℚ) / 100
    let seq_sim : ℚ := ratioQ (lowerChars text1) (lowerChars text2)
    jaccard_sim * 0.4 + fuzz_sim * 0.3 + seq_sim * 0.3

/-! ## `DynamicTermProcessor` (fallback mode) -/

/-- The processor's `fallback_stop_words` set (app2.py lines 119-125). -/
def fallback_stop_words : List String :=
  ["the", "a", "an", "and", "or", "but", "in", "on", "at", "to", "for",
   "of", "with", "by", "from", "as", "is", "was", "are", "were", "be",
   "been", "being", "have", "has", "had", "do", "does", "did", "will",
   "would", "should", "could", "can", "may", "might", "must", "this",
   "that", "these", "those", "i", "you", "he", "she", "it", "we", "they"]

/-- The `medical_patterns` catalogue (app2.py lines 128-135), each pattern a
`\b(?:w1|w2|...)\b` word alternation; a `findall` over the space-joined
clean sentence returns exactly its tokens that are in the alternation. -/
def medical_patterns : List (List String) :=
  [["disease", "disorder", "condition", "syndrome", "symptom", "pain", "ache"],
   ["fever", "headache", "nausea", "vomiting", "diarrhea", "constipation"],
   ["inflammation", "infection", "swelling", "bleeding", "weakness"],
   ["chronic", "acute", "severe", "mild", "persistent", "intermittent"],
   ["cough", "cold", "flu", "asthma", "bronchitis", "pneumonia"],
   ["diabetes", "hypertension", "arthritis", "gastritis"]]

/-- `' '.join(words)` on character lists. -/
def joinSpaces : List String → List Char
  | [] => []
  | [w] => w.data
  | w :: ws => w.data ++ ' ' :: joinSpaces ws

/-- The two-word combinations loop: `' '.join(meaningful_words[i:i+2])`
kept when longer than 5 characters. -/
def bigramCombos : List String → List String
  | w1 :: w2 :: rest =>
    let combo := w1 ++ " " ++ w2
    (if 5 < combo.length then [combo] else []) ++ bigramCombos (w2 :: rest)
  | _ => []

/-- `extract_medical_terms` (app2.py lines 143-199), fallback-tokenizer mode:
lower-case and strip, delete bracketed asides, split into clauses, and per
clause collect medical-pattern matches, long bigrams and meaningful words;
finally deduplicate (`list(set(...))`, determinised as first-seen order) and
keep at most 10. -/
def extract_medical_terms (text : String) : List String :=
  let t := removeBrackets (trimWS (lowerChars text))
  let sentences := splitBy isDelim t
  let extracted := sentences.flatMap (fun s =>
    let sClean := cleanPunct s
    let meaningful := (simple_tokenize sClean).filter
      (fun w => decide (w ∉ fallback_stop_words) && decide (2 < w.length))
    let sentence_clean := joinSpaces meaningful
    let patternMatches := medical_patterns.flatMap
      (fun pws => (simple_tokenize sentence_clean).filter (fun w => decide (w ∈ pws)))
    let combos := if 2 ≤ meaningful.length then bigramCombos meaningful else []
    let singles := meaningful.filter (fun w => decide (3 < w.length))
    patternMatches ++ combos ++ singles)
  (pyListSet extracted).take 10

/-- The fixed catalogue of medical suffixes of `generate_search_variants`. -/
def medical_suffixes : List String := ["itis", "osis", "emia", "pathy", "algia"]

/-- `generate_search_variants` (app2.py lines 201-231).  The NLTK Porter
stemmer is abstracted as an optional `stem` function (`none` models the
NLTK-unavailable fallback, where no stemmed variant is added).  The final
`list(set(variants))` is determinised as `pyListSet`. -/
def generate_search_variants (stem : Option (String → String)) (term : String) : List String :=
  let variants := [term]
  let variants := variants ++
    (match stem with
     | some f => if f term ≠ term then [f term] else []
     | none => [])
  let variants := variants ++
    (if strEndsWith term "s" then [term.dropRight 1] else [term ++ "s"])
  let variants := variants ++ medical_suffixes.flatMap (fun suffix =>
    if strEndsWith term suffix then
      let root := term.dropRight suffix.length
      if 2 < root.length then [root] else []
    else
      if 3 < term.length then [term ++ suffix] else [])
  pyListSet variants

-- Sanity checks
example : scorerTokens "fever" = ["fever"] := by decide
example : extract_medical_terms "flu" = ["flu"] := by decide
example : extract_medical_terms "" = [] := by decide
example : generate_search_variants none "" = ["", "s"] := by decide
example : generate_search_variants none "pain" =
    ["pain", "pains", "painitis", "painosis", "painemia", "painpathy", "painalgia"] := by decide
example : generate_search_variants none "flu" = ["flu", "flus"] := by decide

/-! ## The external lookup (`who_api_search`, lines 251-286)

The WHO API is an external collaborator; it is modelled as a function from
(query, chapter filter) to an outcome.  `failure` covers a transport error
(`requests.exceptions.RequestException`, e.g. a timeout) as well as a missing
auth token — both make `who_api_search` return `[]`; `http status entities`
covers a reply, with non-200 statuses also yielding `[]`. -/

/-- One entry of the `destinationEntities` array of a WHO API search reply:
`theCode`, `definition.@value` may be absent (`.get` defaults apply). -/
structure IcdEntity where
  theCode : Option String
  title : String
  definition : Option String
deriving DecidableEq

/-- Outcome of one call to the external lookup collaborator. -/
inductive LookupOutcome where
  | failure
  | http (status : Nat) (entities : List IcdEntity)
deriving DecidableEq

/-- Character-level model of Python `str.replace` (all non-overlapping
occurrences, scanning left to right); fuelled for structural recursion. -/
def replaceAllFuel (pat repl : List Char) : Nat → List Char → List Char
  | 0, cs => cs
  | fuel + 1, cs =>
    match cs with
    | [] => []
    | c :: rest =>
      if pat.isPrefixOf (c :: rest) then
        repl ++ replaceAllFuel pat repl fuel (List.drop pat.length (c :: rest))
      else c :: replaceAllFuel pat repl fuel rest

def replaceAll (pat repl cs : List Char) : List Char := replaceAllFuel pat repl cs.length cs

/-- `ent.get("title", "").replace("<em class='found'>", "").replace("</em>", "")`. -/
def stripEmTags (s : String) : String :=
  ⟨replaceAll "</em>".data [] (replaceAll "<em class=\x27found\x27>".data [] s.data)⟩

/-- The search result record built by `who_api_search`. -/
structure SearchResult where
  code : String
  term : String
  definition : String
deriving DecidableEq

/-- `who_api_search(query, chapter_filter, limit)` (app2.py lines 251-286):
a failed or non-200 call yields `[]`; a 200 reply yields the first `limit`
entities with the `.get` defaults of lines 274-279 applied. -/
def who_api_search (api : String → Option String → LookupOutcome)
    (query : String) (chapter_filter : Option String) (limit : Nat) : List SearchResult :=
  match api query chapter_filter with
  | .failure => []
  | .http status entities =>
    if status = 200 then
      (entities.take limit).map (fun ent =>
        ⟨ent.theCode.getD "N/A", stripEmTags ent.title,
         ent.definition.getD "No definition available."⟩)
    else []

/-! ## The dynamic mapping engine (`dynamic_mapping_engine`, lines 346-444) -/

/-- A scored mapping candidate: `{**result, "confidence": ..., "method": ...,
"search_term": ...}`. -/
structure Candidate where
  code : String
  term : String
  definition : String
  confidence : ℚ
  method : String
  search_term : String
deriving DecidableEq

/-- Python `str.strip()` at the String level. -/
def strTrim (s : String) : String := ⟨trimWS s.data⟩

/-- Substring test, Python's `needle in hay`. -/
def hasSub (needle : List Char) : List Char → Bool
  | [] => needle.isEmpty
  | c :: rest => needle.isPrefixOf (c :: rest) || hasSub needle rest

/-- Strategy 1 (lines 355-368): direct term search with variants. -/
def strategy_direct_term (api : String → Option String → LookupOutcome)
    (stem : Option (String → String)) (namaste_term : String) : List Candidate :=
  let direct_terms := namaste_term :: generate_search_variants stem namaste_term
  (direct_terms.take 5).flatMap (fun term =>
    if 2 < (strTrim term).length then
      (who_api_search api (strTrim term) none 5).map (fun result =>
        ⟨result.code, result.term, result.definition,
         calculate_semantic_similarity namaste_term result.term, "direct_term", term⟩)
    else [])

/-- Strategy 2 (lines 370-387): medical term extraction from the definition. -/
def strategy_definition_extraction (api : String → Option String → LookupOutcome)
    (namaste_definition : String) : List Candidate :=
  let extracted_terms := extract_medical_terms namaste_definition
  (extracted_terms.take 7).flatMap (fun term =>
    if 2 < (strTrim term).length then
      (who_api_search api (strTrim term) none 3).map (fun result =>
        let def_similarity := calculate_semantic_similarity namaste_definition result.definition
        let term_similarity := calculate_semantic_similarity term result.term
        ⟨result.code, result.term, result.definition,
         def_similarity * 0.7 + term_similarity * 0.3, "definition_extraction", term⟩)
    else [])

/-- Strategy 3 (lines 389-405): TM2 chapter search with the ×1.3 boost
capped at 1.0 (`min(similarity * 1.3, 1.0)`). -/
def strategy_tm2_chapter (api : String → Option String → LookupOutcome)
    (namaste_term namaste_definition : String) : List Candidate :=
  let extracted_terms := extract_medical_terms namaste_definition
  let tm_search_terms := namaste_term :: extracted_terms.take 5
  tm_search_terms.flatMap (fun term =>
    if 2 < (strTrim term).length then
      (who_api_search api (strTrim term) (some "26") 3).map (fun result =>
        let similarity := calculate_semantic_similarity namaste_definition result.definition
        ⟨result.code, result.term, result.definition,
         min (similarity * 1.3) 1, "tm2_chapter", term⟩)
    else [])

/-- The symptom keyword catalogue of strategy 4 (line 409). -/
def symptom_keywords : List String :=
  ["pain", "ache", "fever", "nausea", "weakness", "inflammation", "swelling"]

/-- Strategy 4 (lines 407-422): symptom-keyword search, confidence discounted
by 0.8. -/
def strategy_symptom_based (api : String → Option String → LookupOutcome)
    (namaste_definition : String) : List Candidate :=
  let definition_lower := lowerChars namaste_definition
  symptom_keywords.flatMap (fun keyword =>
    if hasSub keyword.data definition_lower then
      (who_api_search api keyword none 3).map (fun result =>
        ⟨result.code, result.term, result.definition,
         calculate_semantic_similarity namaste_definition result.definition * 0.8,
         "symptom_based", keyword⟩)
    else [])

/-- `all_candidates`: all four strategies' candidates in execution order,
before deduplication (lines 351-422). -/
def engineAllCandidates (api : String → Option String → LookupOutcome)
    (stem : Option (String → String)) (namaste_term namaste_definition : String) :
    List Candidate :=
  strategy_direct_term api stem namaste_term ++
    strategy_definition_extraction api namaste_definition ++
    strategy_tm2_chapter api namaste_term namaste_definition ++
    strategy_symptom_based api namaste_definition

/-- The deduplication loop (lines 424-432): first-seen occurrence of each
code is kept; candidates with the `"N/A"` placeholder code are dropped. -/
def dedupCandidates : List Candidate → List String → List Candidate
  | [], _ => []
  | candidate :: rest, seen_codes =>
    if candidate.code ∉ seen_codes ∧ candidate.code ≠ "N/A" then
      candidate :: dedupCandidates rest (candidate.code :: seen_codes)
    else dedupCandidates rest seen_codes

/-- The comparison of `sort(key=lambda x: x["confidence"], reverse=True)`:
`x` may come before `y` iff `x`'s confidence is at least `y`'s. -/
def confGe (x y : Candidate) : Prop := y.confidence ≤ x.confidence

instance : DecidableRel confGe :=
  fun x y => inferInstanceAs (Decidable (y.confidence ≤ x.confidence))

instance : IsTotal Candidate confGe := ⟨fun x y => le_total y.confidence x.confidence⟩

instance : IsTrans Candidate confGe := ⟨fun _ _ _ h1 h2 => le_trans h2 h1⟩

/-- Lines 424-438: deduplicate, stable-sort by confidence descending
(Python's `list.sort` is stable; any stable sort computes the same list,
modelled by insertion sort under `confGe`), return the top 5. -/
def rankCandidates (all_candidates : List Candidate) : List Candidate :=
  (List.insertionSort confGe (dedupCandidates all_candidates [])).take 5

/-- `dynamic_mapping_engine(namaste_code, namaste_term, namaste_definition)`
(lines 346-444).  The `namaste_code` argument is only logged by the code. -/
def dynamic_mapping_engine (api : String → Option String → LookupOutcome)
    (stem : Option (String → String))
    (_namaste_code namaste_term namaste_definition : String) : List Candidate :=
  rankCandidates (engineAllCandidates api stem namaste_term namaste_definition)

/-! ## The `/map-code` endpoint (`map_namaste_to_icd`, lines 467-521) -/

/-- A row of a loaded NAMASTE terminology (columns renamed to
`code`/`term`/`definition` at load time). -/
structure SourceRecord where
  code : String
  term : String
  definition : String
deriving DecidableEq

/-- The endpoint's possible responses.  `badRequest` is HTTP 400, `notFound`
HTTP 404, `ok` the HTTP 200 JSON body (source details with its system,
`mapped_details`, `total_candidates_found = len(mapped_results)` and
`mapping_success = len(formatted_results) > 0`).  The string formatting of
the 200 body (definition truncation, `"%.3f"` confidence rendering) is
presentation and not modelled.  The embedding is total, so the
`except`/HTTP-500 branch of lines 514-521 is unreachable and not modelled. -/
inductive MapCodeResponse where
  | badRequest (error : String)
  | notFound (error : String)
  | ok (system : String) (source_details : SourceRecord) (mapped_details : List Candidate)
      (total_candidates_found : Nat) (mapping_success : Bool)
deriving DecidableEq

/-- The lookup over `ALL_NAMASTE_DATA` (lines 477-483): systems in insertion
order, first record whose `code` matches. -/
def findSource : List (String × List SourceRecord) → String → Option (String × SourceRecord)
  | [], _ => none
  | (system, data) :: rest, namaste_code =>
    match data.find? (fun item => decide (item.code = namaste_code)) with
    | some found => some (system, found)
    | none => findSource rest namaste_code

/-- `map_namaste_to_icd` (lines 467-521).  A missing or empty payload code is
falsy (`if not namaste_code`) and yields HTTP 400; an unknown code yields
HTTP 404 before the engine or the lookup is ever invoked. -/
def map_namaste_to_icd (all_namaste_data : List (String × List SourceRecord))
    (api : String → Option String → LookupOutcome) (stem : Option (String → String))
    (payload_code : Option String) : MapCodeResponse :=
  match payload_code with
  | none => .badRequest "No NAMASTE code provided"
  | some namaste_code =>
    if namaste_code = "" then .badRequest "No NAMASTE code provided"
    else
      match findSource all_namaste_data namaste_code with
      | none => .notFound ("Code " ++ namaste_code ++ " not found in any NAMASTE system.")
      | some (system, source_details) =>
        let mapped_results :=
          dynamic_mapping_engine api stem namaste_code source_details.term
            source_details.definition
        .ok system source_details mapped_results mapped_results.length
          (!mapped_results.isEmpty)

/-! ## Concrete test fixtures -/

/-- A lookup stub: one entity with code `AB1` for the unfiltered query
`"flu"`, an empty 200 reply otherwise. -/
def fluApi : String → Option String → LookupOutcome :=
  fun q cf => if q = "flu" ∧ cf = none then .http 200 [⟨some "AB1", "flu", some "flu"⟩]
              else .http 200 []

/-- A lookup stub that fails (timeout / auth failure) on every call. -/
def failApi : String → Option String → LookupOutcome := fun _ _ => .failure

/-- A lookup stub that answers HTTP 500 with no entities on every call. -/
def http500Api : String → Option String → LookupOutcome := fun _ _ => .http 500 []

def fluRecord : SourceRecord := ⟨"NAM1", "flu", "flu"⟩

def fluData : List (String × List SourceRecord) := [("Ayurveda", [fluRecord])]

example : who_api_search fluApi "flu" none 5 = [⟨"AB1", "flu", "flu"⟩] := by decide
example : who_api_search fluApi "flus" none 5 = [] := by decide
example : who_api_search failApi "flu" none 5 = [] := by decide
example : findSource fluData "NAM1" = some ("Ayurveda", fluRecord) := by decide
example : findSource fluData "NAM2" = none := by decide

/-- Abbreviation for the self-similarity of `"flu"` as the engine computes it. -/
def simFlu : ℚ := calculate_semantic_similarity "flu" "flu"

theorem ratioQ_flu : ratioQ (lowerChars "flu") (lowerChars "flu") = 1 := by
  have hm : matchesTotal (lowerChars "flu") (lowerChars "flu") = 3 := by decide
  have hl : (lowerChars "flu").length = 3 := by decide
  simp only [ratioQ, hm, hl]
  norm_num

theorem sim_flu_self : simFlu = 1 := by
  have ht : scorerTokens "flu" = ["flu"] := by decide
  simp only [simFlu, calculate_semantic_similarity, ht, ratioQ_flu]
  norm_num [pyRound]
  decide

/-- The direct-term candidate the flu fixture produces (confidence 1). -/
def cFluDirect : Candidate := ⟨"AB1", "flu", "flu", 1, "direct_term", "flu"⟩

/-- The definition-extraction candidate the flu fixture produces. -/
def cFluDef : Candidate := ⟨"AB1", "flu", "flu", 1, "definition_extraction", "flu"⟩

theorem engineAllCandidates_flu :
    engineAllCandidates fluApi none "flu" "flu" = [cFluDirect, cFluDirect, cFluDef] := by
  have h : engineAllCandidates fluApi none "flu" "flu" =
      [⟨"AB1", "flu", "flu", simFlu, "direct_term", "flu"⟩,
       ⟨"AB1", "flu", "flu", simFlu, "direct_term", "flu"⟩,
       ⟨"AB1", "flu", "flu", simFlu * 0.7 + simFlu * 0.3, "definition_extraction", "flu"⟩] := rfl
  rw [h, sim_flu_self]
  norm_num [cFluDirect, cFluDef]

theorem engine_flu :
    dynamic_mapping_engine fluApi none "NAM1" "flu" "flu" = [cFluDirect] := by
  rw [dynamic_mapping_engine, engineAllCandidates_flu]
  rfl

theorem map_flu :
    map_namaste_to_icd fluData fluApi none (some "NAM1") =
      .ok "Ayurveda" fluRecord [cFluDirect] 1 true := by
  have h : map_namaste_to_icd fluData fluApi none (some "NAM1") =
      .ok "Ayurveda" fluRecord (dynamic_mapping_engine fluApi none "NAM1" "flu" "flu")
        (dynamic_mapping_engine fluApi none "NAM1" "flu" "flu").length
        (!(dynamic_mapping_engine fluApi none "NAM1" "flu" "flu").isEmpty) := rfl
  rw [h, engine_flu]
  rfl

/-! ## Properties of the deduplication stage -/

/-- Every survivor of the dedup loop has a non-placeholder code not yet seen,
and is the first candidate of the input carrying its code. -/
theorem dedupCandidates_spec :
    ∀ (cs : List Candidate) (seen : List String) (c : Candidate),
      c ∈ dedupCandidates cs seen →
      c.code ≠ "N/A" ∧ c.code ∉ seen ∧
        cs.find? (fun d => decide (d.code = c.code)) = some c := by
  intro cs
  induction cs with
  | nil => intro seen c h; simp [dedupCandidates] at h
  | cons d rest ih =>
    intro seen c h
    rw [dedupCandidates] at h
    by_cases hd : d.code ∉ seen ∧ d.code ≠ "N/A"
    · rw [if_pos hd] at h
      rcases List.mem_cons.mp h with hceq | hmem
      · subst hceq
        refine ⟨hd.2, hd.1, ?_⟩
        simp [List.find?_cons]
      · obtain ⟨hna, hnotin, hfind⟩ := ih (d.code :: seen) c hmem
        have hne : d.code ≠ c.code := by
          intro he; exact hnotin (he ▸ List.mem_cons_self _ _)
        refine ⟨hna, fun hc => hnotin (List.mem_cons_of_mem _ hc), ?_⟩
        rw [List.find?_cons, decide_eq_false hne]
        exact hfind
    · rw [if_neg hd] at h
      obtain ⟨hna, hnotin, hfind⟩ := ih seen c h
      have hne : d.code ≠ c.code := by
        intro he
        rcases not_and_or.mp hd with h1 | h1
        · exact hnotin (he ▸ not_not.mp h1)
        · exact hna (he ▸ not_not.mp h1)
      refine ⟨hna, hnotin, ?_⟩
      rw [List.find?_cons, decide_eq_false hne]
      exact hfind

/-- The codes of the dedup output are pairwise distinct. -/
theorem dedupCandidates_codes_nodup :
    ∀ (cs : List Candidate) (seen : List String),
      ((dedupCandidates cs seen).map Candidate.code).Nodup := by
  intro cs
  induction cs with
  | nil => intro seen; simp [dedupCandidates]
  | cons d rest ih =>
    intro seen
    rw [dedupCandidates]
    by_cases hd : d.code ∉ seen ∧ d.code ≠ "N/A"
    · rw [if_pos hd]
      rw [List.map_cons, List.nodup_cons]
      constructor
      · intro hmem
        obtain ⟨c, hc, hcode⟩ := List.mem_map.mp hmem
        have := (dedupCandidates_spec rest (d.code :: seen) c hc).2.1
        exact this (hcode ▸ List.mem_cons_self _ _)
      · exact ih (d.code :: seen)
    · rw [if_neg hd]
      exact ih seen

/-! ## Properties of the sort stage -/

/-- Inserting a candidate of confidence `v` under `confGe` places it in front
of every other candidate of confidence `v` (the inserted one is the later
arrival only when this lemma is used right-to-left by `insertionSort`). -/
theorem filter_orderedInsert_of_eq (v : ℚ) (x : Candidate) (hx : x.confidence = v) :
    ∀ l : List Candidate,
      (List.orderedInsert confGe x l).filter (fun c => decide (c.confidence = v)) =
        x :: l.filter (fun c => decide (c.confidence = v)) := by
  intro l
  induction l with
  | nil => simp [List.orderedInsert, hx]
  | cons y ys ih =>
    rw [List.orderedInsert]
    by_cases h : confGe x y
    · rw [if_pos h]
      simp [List.filter_cons, hx]
    · rw [if_neg h]
      have hy : y.confidence ≠ v := by
        intro he
        exact h (le_of_eq (he.trans hx.symm))
      simp [List.filter_cons, hy, ih]

/-- Inserting a candidate of a different confidence does not disturb the
relative order of the confidence-`v` candidates. -/
theorem filter_orderedInsert_of_ne (v : ℚ) (x : Candidate) (hx : x.confidence ≠ v) :
    ∀ l : List Candidate,
      (List.orderedInsert confGe x l).filter (fun c => decide (c.confidence = v)) =
        l.filter (fun c => decide (c.confidence = v)) := by
  intro l
  induction l with
  | nil => simp [List.orderedInsert, hx]
  | cons y ys ih =>
    rw [List.orderedInsert]
    by_cases h : confGe x y
    · rw [if_pos h]
      simp [List.filter_cons, hx]
    · rw [if_neg h]
      by_cases hy : y.confidence = v
      · simp only [List.filter_cons, decide_eq_true_eq, if_pos hy, ih]
      · simp only [List.filter_cons, decide_eq_true_eq, if_neg hy, ih]

/-- Stability of the modelled sort: restricted to any one confidence value,
the sorted list keeps the input's relative order (the standard filter
characterisation of a stable sort). -/
theorem filter_insertionSort (v : ℚ) :
    ∀ l : List Candidate,
      (List.insertionSort confGe l).filter (fun c => decide (c.confidence = v)) =
        l.filter (fun c => decide (c.confidence = v)) := by
  intro l
  induction l with
  | nil => rfl
  | cons x xs ih =>
    rw [List.insertionSort]
    by_cases hx : x.confidence = v
    · rw [filter_orderedInsert_of_eq v x hx, ih]
      simp [List.filter_cons, hx]
    · rw [filter_orderedInsert_of_ne v x hx, ih]
      simp [List.filter_cons, hx]

/-! ## Properties of the full ranking stage -/

theorem rankCandidates_length_le (cs : List Candidate) : (rankCandidates cs).length ≤ 5 := by
  rw [rankCandidates, List.length_take]
  exact min_le_left _ _

theorem rankCandidates_sorted (cs : List Candidate) :
    List.Pairwise confGe (rankCandidates cs) :=
  List.Pairwise.sublist (List.take_sublist _ _) (List.sorted_insertionSort confGe _)

theorem rankCandidates_mem (cs : List Candidate) (c : Candidate)
    (h : c ∈ rankCandidates cs) :
    c.code ≠ "N/A" ∧ cs.find? (fun d => decide (d.code = c.code)) = some c := by
  have h1 : c ∈ List.insertionSort confGe (dedupCandidates cs []) :=
    (List.take_sublist _ _).subset h
  have h2 : c ∈ dedupCandidates cs [] := (List.perm_insertionSort confGe _).subset h1
  have h3 := dedupCandidates_spec cs [] c h2
  exact ⟨h3.1, h3.2.2⟩

theorem rankCandidates_codes_nodup (cs : List Candidate) :
    ((rankCandidates cs).map Candidate.code).Nodup := by
  have hperm : ((List.insertionSort confGe (dedupCandidates cs [])).map Candidate.code).Perm
      ((dedupCandidates cs []).map Candidate.code) :=
    (List.perm_insertionSort confGe _).map Candidate.code
  have h1 : ((List.insertionSort confGe (dedupCandidates cs [])).map Candidate.code).Nodup :=
    hperm.nodup_iff.mpr (dedupCandidates_codes_nodup cs [])
  rw [rankCandidates, List.map_take]
  exact List.Nodup.sublist (List.take_sublist _ _) h1

/-! ## Claim theorems -/

/-- First candidate of the spec's duplicate-code scenario (§8): code `X1`,
confidence 0.4, surfaced first. -/
def xFirst : Candidate := ⟨"X1", "term one", "def one", 0.4, "direct_term", "q1"⟩

/-- Later candidate of the same scenario: code `X1`, confidence 0.9. -/
def xLater : Candidate := ⟨"X1", "term two", "def two", 0.9, "tm2_chapter", "q2"⟩

/-- C1: deduplication keeps the first-seen occurrence of a target code.  For
every list of candidates in strategy execution order, every entry of the
final result (dedup, stable sort, top 5) is exactly the first candidate of
the list carrying its code — never a later (possibly higher-confidence)
duplicate; and the concrete two-candidate scenario (code `X1`, confidences
0.4 then 0.9) yields the 0.4 occurrence. -/
theorem C1_dedup_keeps_first_seen :
    (∀ (cs : List Candidate) (c : Candidate),
        c ∈ rankCandidates cs →
        cs.find? (fun d => decide (d.code = c.code)) = some c) ∧
      rankCandidates [xFirst, xLater] = [xFirst] := by
  constructor
  · intro cs c h
    exact (rankCandidates_mem cs c h).2
  · rfl

/-- Witness for C1 at the spec's `X1` scenario: the kept entry is the first
occurrence (confidence 0.4). -/
theorem C1_witness :
    [xFirst, xLater].find? (fun d => decide (d.code = xFirst.code)) = some xFirst :=
  C1_dedup_keeps_first_seen.1 [xFirst, xLater] xFirst
    ((show rankCandidates [xFirst, xLater] = [xFirst] from rfl).symm ▸
      List.mem_singleton.mpr rfl)

/-- C3: for every mapping request (any lookup behaviour, stemmer, inputs),
the returned candidate list has length at most 5, is sorted by confidence
non-increasing, contains no two entries with the same code, and the sort is
stable on ties: restricted to any single confidence value the sorted
deduplicated list keeps the first-seen (dedup) order. -/
theorem C3_result_shape (api : String → Option String → LookupOutcome)
    (stem : Option (String → String)) (code term defn : String) :
    (dynamic_mapping_engine api stem code term defn).length ≤ 5 ∧
      List.Pairwise (fun x y => y.confidence ≤ x.confidence)
        (dynamic_mapping_engine api stem code term defn) ∧
      ((dynamic_mapping_engine api stem code term defn).map Candidate.code).Nodup ∧
      (∀ v : ℚ,
        (List.insertionSort confGe
              (dedupCandidates (engineAllCandidates api stem term defn) [])).filter
            (fun c => decide (c.confidence = v)) =
          (dedupCandidates (engineAllCandidates api stem term defn) []).filter
            (fun c => decide (c.confidence = v))) := by
  refine ⟨rankCandidates_length_le _, ?_, rankCandidates_codes_nodup _,
    fun v => filter_insertionSort v _⟩
  exact rankCandidates_sorted _

/-- C8 (amended): `generate_search_variants` always returns a deduplicated
list containing the input term itself; contrary to the claim, variants
shorter than 2 characters (including the empty string) are NOT discarded by
the generator — the engine filters short queries only at its call sites
(`len(term.strip()) > 2`). -/
theorem C8_variants_membership (stem : Option (String → String)) (term : String) :
    term ∈ generate_search_variants stem term ∧
      (generate_search_variants stem term).Nodup := by
  refine ⟨?_, nodup_pyListSet _⟩
  simp only [generate_search_variants, mem_pyListSet]
  simp

/-- C8 counterexample: for the empty input term the generator returns a list
containing the empty string — an output that is neither non-empty nor of
length ≥ 2, refuting the claim as stated. -/
theorem C8_counterexample :
    "" ∈ generate_search_variants none "" ∧
      ¬(("" : String) ≠ "" ∧ 2 ≤ ("" : String).length) :=
  ⟨by decide, by decide⟩

/-- C9: no candidate of any final mapping result carries the `"N/A"`
placeholder code (assigned by `who_api_search` when the WHO entity lacks
`theCode`): the dedup loop's `code != "N/A"` test drops all of them, even a
sole or highest-confidence one. -/
theorem C9_no_placeholder_codes (api : String → Option String → LookupOutcome)
    (stem : Option (String → String)) (code term defn : String) (c : Candidate)
    (h : c ∈ dynamic_mapping_engine api stem code term defn) : c.code ≠ "N/A" :=
  (rankCandidates_mem _ c h).1

/-- Witness for C9 on the flu fixture: the returned candidate has code
`AB1 ≠ "N/A"`. -/
theorem C9_witness : cFluDirect.code ≠ "N/A" :=
  C9_no_placeholder_codes fluApi none "NAM1" "flu" "flu" cFluDirect
    (engine_flu.symm ▸ List.mem_singleton.mpr rfl)

/-! ## Bounds of the SequenceMatcher: every matching block lies inside its
range, so the matched total is at most either length and `ratio ∈ [0,1]`. -/

/-- A candidate best block `(i, j, size)` lies inside `[alo,ahi) × [blo,bhi)`. -/
def BestInBounds (alo ahi blo bhi : Nat) (t : Nat × Nat × Nat) : Prop :=
  alo ≤ t.1 ∧ t.1 + t.2.2 ≤ ahi ∧ blo ≤ t.2.1 ∧ t.2.1 + t.2.2 ≤ bhi

theorem jsFor_bounds {b : List Char} {blo bhi : Nat} {c : Char} {j : Nat}
    (h : j ∈ jsFor b blo bhi c) : blo ≤ j ∧ j < bhi := by
  have h1 := (List.mem_filter.mp h).1
  rw [List.mem_range'] at h1
  obtain ⟨i, hi, rfl⟩ := h1
  omega

/-- The row-local bound invariant on the `j2len` dictionary: entries are at
most the number of processed rows, and a non-zero entry at column `j`
witnesses a run inside `[blo, ∙]`, hence is at most `j + 1 - blo`. -/
def J2Inv (alo blo i : Nat) (j2 : Nat → Nat) : Prop :=
  ∀ j', j2 j' ≤ i - alo ∧ (j2 j' ≠ 0 → j2 j' + blo ≤ j' + 1)

theorem runLen_bounds {alo blo i : Nat} {j2 : Nat → Nat} (hj2 : J2Inv alo blo i j2)
    {j : Nat} (hj : blo ≤ j) :
    runLen j2 j ≤ i - alo + 1 ∧ runLen j2 j + blo ≤ j + 1 := by
  rw [runLen]
  by_cases h0 : j = 0
  · subst h0
    rw [if_pos rfl]
    omega
  · rw [if_neg h0]
    have h1 := (hj2 (j - 1)).1
    by_cases hz : j2 (j - 1) = 0
    · rw [hz]
      omega
    · have h2 := (hj2 (j - 1)).2 hz
      omega

theorem innerFold_bounds {alo ahi blo bhi i : Nat} {j2 : Nat → Nat}
    (hi1 : alo ≤ i) (hi2 : i < ahi) (hj2 : J2Inv alo blo i j2) :
    ∀ (js : List Nat) (best : Nat × Nat × Nat),
      (∀ j ∈ js, blo ≤ j ∧ j < bhi) →
      BestInBounds alo ahi blo bhi best →
      BestInBounds alo ahi blo bhi (innerFold i j2 js best) := by
  intro js
  induction js with
  | nil => intro best _ hb; exact hb
  | cons j js ih =>
    intro best hjs hb
    rw [innerFold]
    apply ih _ (fun j' hj' => hjs j' (List.mem_cons_of_mem _ hj'))
    by_cases hk : best.2.2 < runLen j2 j
    · rw [if_pos hk]
      have hjb := hjs j (List.mem_cons_self _ _)
      have hrl := runLen_bounds hj2 hjb.1
      unfold BestInBounds
      dsimp only
      refine ⟨by omega, by omega, by omega, by omega⟩
    · rw [if_neg hk]
      exact hb

theorem rowsFold_bounds (a b : List Char) (alo ahi blo bhi : Nat) :
    ∀ (cnt i : Nat) (j2 : Nat → Nat) (best : Nat × Nat × Nat),
      alo ≤ i → i + cnt = ahi →
      J2Inv alo blo i j2 →
      BestInBounds alo ahi blo bhi best →
      BestInBounds alo ahi blo bhi
        (rowsFold a b blo bhi (List.range' i cnt) (j2, best)).2 := by
  intro cnt
  induction cnt with
  | zero => intro i j2 best _ _ _ hb; exact hb
  | succ n ih =>
    intro i j2 best hi hcnt hj2 hb
    have hr : List.range' i (n + 1) = i :: List.range' (i + 1) n := rfl
    rw [hr, rowsFold]
    dsimp only
    apply ih (i + 1)
    · omega
    · omega
    · intro j'
      rw [newJ2len]
      by_cases hmem : j' ∈ jsFor b blo bhi (a.getD i cNul)
      · rw [if_pos hmem]
        have hjb := jsFor_bounds hmem
        have hrl := runLen_bounds hj2 hjb.1
        exact ⟨by omega, fun _ => by omega⟩
      · rw [if_neg hmem]
        exact ⟨Nat.zero_le _, fun h => absurd rfl h⟩
    · exact innerFold_bounds hi (by omega) hj2 _ best (fun j hj => jsFor_bounds hj) hb

theorem extendBack_bounds (a b : List Char) {alo ahi blo bhi : Nat} :
    ∀ (fuel : Nat) (t : Nat × Nat × Nat),
      BestInBounds alo ahi blo bhi t →
      BestInBounds alo ahi blo bhi (extendBack a b alo blo fuel t) := by
  intro fuel
  induction fuel with
  | zero => intro t h; exact h
  | succ n ih =>
    intro t h
    obtain ⟨i, j, k⟩ := t
    rw [extendBack]
    split
    · rename_i hcond
      apply ih
      unfold BestInBounds at h ⊢
      dsimp only at h ⊢
      obtain ⟨hc1, hc2, -⟩ := hcond
      omega
    · exact h

theorem extendFwd_bounds (a b : List Char) {alo ahi blo bhi : Nat} :
    ∀ (fuel : Nat) (t : Nat × Nat × Nat),
      BestInBounds alo ahi blo bhi t →
      BestInBounds alo ahi blo bhi (extendFwd a b ahi bhi fuel t) := by
  intro fuel
  induction fuel with
  | zero => intro t h; exact h
  | succ n ih =>
    intro t h
    obtain ⟨i, j, k⟩ := t
    rw [extendFwd]
    split
    · rename_i hcond
      apply ih
      unfold BestInBounds at h ⊢
      dsimp only at h ⊢
      obtain ⟨hc1, hc2, -⟩ := hcond
      omega
    · exact h

theorem findLongestMatch_bounds (a b : List Char) (alo ahi blo bhi : Nat)
    (h1 : alo ≤ ahi) (h2 : blo ≤ bhi) :
    BestInBounds alo ahi blo bhi (findLongestMatch a b alo ahi blo bhi) := by
  rw [findLongestMatch]
  apply extendFwd_bounds
  apply extendBack_bounds
  apply rowsFold_bounds a b alo ahi blo bhi (ahi - alo) alo _ _ (le_refl _) (by omega)
  · intro j'
    exact ⟨Nat.zero_le _, fun h => absurd rfl h⟩
  · unfold BestInBounds
    dsimp only
    omega

theorem matchesTotalFuel_le (a b : List Char) :
    ∀ (fuel alo ahi blo bhi : Nat), alo ≤ ahi → blo ≤ bhi →
      matchesTotalFuel a b fuel alo ahi blo bhi ≤ ahi - alo ∧
        matchesTotalFuel a b fuel alo ahi blo bhi ≤ bhi - blo := by
  intro fuel
  induction fuel with
  | zero =>
    intro alo ahi blo bhi _ _
    exact ⟨Nat.zero_le _, Nat.zero_le _⟩
  | succ n ih =>
    intro alo ahi blo bhi h1 h2
    rw [matchesTotalFuel]
    have hb := findLongestMatch_bounds a b alo ahi blo bhi h1 h2
    obtain ⟨hb1, hb2, hb3, hb4⟩ := hb
    by_cases hk : (findLongestMatch a b alo ahi blo bhi).2.2 = 0
    · rw [if_pos hk]
      exact ⟨Nat.zero_le _, Nat.zero_le _⟩
    · rw [if_neg hk]
      have r1 := ih alo (findLongestMatch a b alo ahi blo bhi).1 blo
        (findLongestMatch a b alo ahi blo bhi).2.1 hb1 hb3
      have r2 := ih ((findLongestMatch a b alo ahi blo bhi).1 +
          (findLongestMatch a b alo ahi blo bhi).2.2) ahi
        ((findLongestMatch a b alo ahi blo bhi).2.1 +
          (findLongestMatch a b alo ahi blo bhi).2.2) bhi (by omega) (by omega)
      omega

theorem matchesTotal_le (a b : List Char) :
    matchesTotal a b ≤ a.length ∧ matchesTotal a b ≤ b.length := by
  have h := matchesTotalFuel_le a b (a.length + b.length + 1) 0 a.length 0 b.length
    (Nat.zero_le _) (Nat.zero_le _)
  simpa using h

theorem ratioQ_nonneg (a b : List Char) : 0 ≤ ratioQ a b := by
  rw [ratioQ]
  split
  · norm_num
  · positivity

theorem ratioQ_le_one (a b : List Char) : ratioQ a b ≤ 1 := by
  rw [ratioQ]
  split
  · norm_num
  · rename_i hT
    have hM := matchesTotal_le a b
    have hpos : (0 : ℚ) < (a.length : ℚ) + (b.length : ℚ) := by
      have : 0 < a.length + b.length := Nat.pos_of_ne_zero hT
      exact_mod_cast this
    rw [div_le_one hpos]
    have h1 : (matchesTotal a b : ℚ) ≤ (a.length : ℚ) := by exact_mod_cast hM.1
    have h2 : (matchesTotal a b : ℚ) ≤ (b.length : ℚ) := by exact_mod_cast hM.2
    linarith

theorem pyRound_nonneg {q : ℚ} (h : 0 ≤ q) : 0 ≤ pyRound q := by
  have hf : (0 : ℤ) ≤ ⌊q⌋ := Int.floor_nonneg.mpr h
  rw [pyRound]
  split
  · exact hf
  · split
    · omega
    · split
      · exact hf
      · omega

theorem pyRound_le {q : ℚ} {n : ℤ} (h : q ≤ (n : ℚ)) : pyRound q ≤ n := by
  have hf : ⌊q⌋ ≤ n := by
    have := Int.floor_le_floor h
    rwa [Int.floor_intCast] at this
  have hfle : (⌊q⌋ : ℚ) ≤ q := Int.floor_le q
  rw [pyRound]
  split
  · exact hf
  · rename_i hlt
    push_neg at hlt
    have hstrict : ⌊q⌋ < n := by
      by_contra hcon
      push_neg at hcon
      have heq : ⌊q⌋ = n := le_antisymm hf hcon
      rw [heq] at hlt
      have : (n : ℚ) + 1 / 2 ≤ q := by linarith
      linarith
    split
    · omega
    · split
      · exact hf
      · omega

/-! ## Bounds of the similarity scorer and of every strategy confidence -/

theorem weighted_combo_bounds {j f s : ℚ} (hj1 : 0 ≤ j) (hj2 : j ≤ 1)
    (hf1 : 0 ≤ f) (hf2 : f ≤ 1) (hs1 : 0 ≤ s) (hs2 : s ≤ 1) :
    0 ≤ j * 0.4 + f * 0.3 + s * 0.3 ∧ j * 0.4 + f * 0.3 + s * 0.3 ≤ 1 := by
  constructor <;> nlinarith

/-- The scorer output is always in `[0,1]`: the Jaccard term is a quotient of
an intersection count by a larger union count, the fuzzy term is a rounded
percentage of a ratio in `[0,1]`, and the sequence term is that ratio. -/
theorem calculate_semantic_similarity_bounds (t1 t2 : String) :
    0 ≤ calculate_semantic_similarity t1 t2 ∧ calculate_semantic_similarity t1 t2 ≤ 1 := by
  rw [calculate_semantic_similarity]
  split
  · norm_num
  · have hr1 := ratioQ_nonneg (lowerChars t1) (lowerChars t2)
    have hr2 := ratioQ_le_one (lowerChars t1) (lowerChars t2)
    have hp1 : (0 : ℤ) ≤ pyRound (100 * ratioQ (lowerChars t1) (lowerChars t2)) :=
      pyRound_nonneg (by linarith)
    have hp2 : pyRound (100 * ratioQ (lowerChars t1) (lowerChars t2)) ≤ (100 : ℤ) :=
      pyRound_le (by push_cast; linarith)
    have hf1 : (0 : ℚ) ≤
        (pyRound (100 * ratioQ (lowerChars t1) (lowerChars t2)) : ℚ) / 100 := by
      have : (0 : ℚ) ≤ (pyRound (100 * ratioQ (lowerChars t1) (lowerChars t2)) : ℚ) := by
        exact_mod_cast hp1
      linarith
    have hf2 : (pyRound (100 * ratioQ (lowerChars t1) (lowerChars t2)) : ℚ) / 100 ≤ 1 := by
      have : (pyRound (100 * ratioQ (lowerChars t1) (lowerChars t2)) : ℚ) ≤ 100 := by
        exact_mod_cast hp2
      linarith
    apply weighted_combo_bounds _ _ hf1 hf2 hr1 hr2
    · split
      · exact le_refl 0
      · positivity
    · split
      · norm_num
      · rename_i he
        push_neg at he
        have hlen : 0 < (scorerTokens t1).length := List.length_pos.mpr he.1
        have hinter : ((scorerTokens t1).filter
              (fun w => decide (w ∈ scorerTokens t2))).length ≤ (scorerTokens t1).length :=
          List.length_filter_le _ _
        have hunion : (scorerTokens t1).length ≤
            ((scorerTokens t1) ++ (scorerTokens t2).filter
              (fun w => decide (w ∉ scorerTokens t1))).length := by
          rw [List.length_append]
          omega
        have hupos : (0 : ℚ) <
            (((scorerTokens t1) ++ (scorerTokens t2).filter
              (fun w => decide (w ∉ scorerTokens t1))).length : ℚ) := by
          exact_mod_cast by omega
        rw [div_le_one hupos]
        exact_mod_cast le_trans hinter hunion

theorem strategy_direct_term_bounds {api : String → Option String → LookupOutcome}
    {stem : Option (String → String)} {namaste_term : String} {c : Candidate}
    (hc : c ∈ strategy_direct_term api stem namaste_term) :
    0 ≤ c.confidence ∧ c.confidence ≤ 1 := by
  rw [strategy_direct_term] at hc
  obtain ⟨t, _, hc⟩ := List.mem_flatMap.mp hc
  split at hc
  · obtain ⟨r, _, rfl⟩ := List.mem_map.mp hc
    exact calculate_semantic_similarity_bounds _ _
  · simp at hc

theorem strategy_definition_extraction_bounds
    {api : String → Option String → LookupOutcome} {namaste_definition : String}
    {c : Candidate} (hc : c ∈ strategy_definition_extraction api namaste_definition) :
    0 ≤ c.confidence ∧ c.confidence ≤ 1 := by
  rw [strategy_definition_extraction] at hc
  obtain ⟨t, _, hc⟩ := List.mem_flatMap.mp hc
  split at hc
  · obtain ⟨r, _, rfl⟩ := List.mem_map.mp hc
    have h1 := calculate_semantic_similarity_bounds namaste_definition r.definition
    have h2 := calculate_semantic_similarity_bounds t r.term
    dsimp only
    constructor <;> nlinarith [h1.1, h1.2, h2.1, h2.2]
  · simp at hc

theorem strategy_tm2_chapter_bounds {api : String → Option String → LookupOutcome}
    {namaste_term namaste_definition : String} {c : Candidate}
    (hc : c ∈ strategy_tm2_chapter api namaste_term namaste_definition) :
    0 ≤ c.confidence ∧ c.confidence ≤ 1 := by
  rw [strategy_tm2_chapter] at hc
  obtain ⟨t, _, hc⟩ := List.mem_flatMap.mp hc
  split at hc
  · obtain ⟨r, _, rfl⟩ := List.mem_map.mp hc
    have h1 := calculate_semantic_similarity_bounds namaste_definition r.definition
    dsimp only
    constructor
    · apply le_min
      · nlinarith [h1.1]
      · norm_num
    · exact min_le_right _ _
  · simp at hc

theorem strategy_symptom_based_bounds {api : String → Option String → LookupOutcome}
    {namaste_definition : String} {c : Candidate}
    (hc : c ∈ strategy_symptom_based api namaste_definition) :
    0 ≤ c.confidence ∧ c.confidence ≤ 1 := by
  rw [strategy_symptom_based] at hc
  obtain ⟨t, _, hc⟩ := List.mem_flatMap.mp hc
  split at hc
  · obtain ⟨r, _, rfl⟩ := List.mem_map.mp hc
    have h1 := calculate_semantic_similarity_bounds namaste_definition r.definition
    dsimp only
    constructor <;> nlinarith [h1.1, h1.2]
  · simp at hc

theorem engineAllCandidates_bounds {api : String → Option String → LookupOutcome}
    {stem : Option (String → String)} {namaste_term namaste_definition : String}
    {c : Candidate} (hc : c ∈ engineAllCandidates api stem namaste_term namaste_definition) :
    0 ≤ c.confidence ∧ c.confidence ≤ 1 := by
  rw [engineAllCandidates] at hc
  rcases List.mem_append.mp hc with hc | hc4
  · rcases List.mem_append.mp hc with hc | hc3
    · rcases List.mem_append.mp hc with hc1 | hc2
      · exact strategy_direct_term_bounds hc1
      · exact strategy_definition_extraction_bounds hc2
    · exact strategy_tm2_chapter_bounds hc3
  · exact strategy_symptom_based_bounds hc4

/-- C2: every candidate confidence produced by the engine lies in `[0,1]`:
the weighted combination `0.4*jaccard + 0.3*fuzzy + 0.3*sequence` is in
`[0,1]` for every pair of input strings, and every strategy's confidence
formula (including the TM2 ×1.3 boost, capped at 1.0 by `min(·, 1.0)`)
stays in `[0,1]`. -/
theorem C2_confidence_in_unit_interval :
    (∀ t1 t2 : String,
        0 ≤ calculate_semantic_similarity t1 t2 ∧ calculate_semantic_similarity t1 t2 ≤ 1) ∧
      (∀ (api : String → Option String → LookupOutcome) (stem : Option (String → String))
          (term defn : String) (c : Candidate),
          c ∈ engineAllCandidates api stem term defn →
          0 ≤ c.confidence ∧ c.confidence ≤ 1) :=
  ⟨calculate_semantic_similarity_bounds,
   fun _ _ _ _ _ hc => engineAllCandidates_bounds hc⟩

/-- Witness for C2 at the flu fixture: the surfaced candidate's confidence
is in `[0,1]`. -/
theorem C2_witness : 0 ≤ cFluDirect.confidence ∧ cFluDirect.confidence ≤ 1 :=
  C2_confidence_in_unit_interval.2 fluApi none "flu" "flu" cFluDirect
    (engineAllCandidates_flu.symm ▸ List.mem_cons_self _ _)

/-! ## Self-match of the SequenceMatcher: on two identical strings the DP
finds the full-string block, so `ratio = 1`. -/

theorem range'_split (s m n : Nat) :
    List.range' s (m + n) = List.range' s m ++ List.range' (s + m) n := by
  have h := List.range'_append s m n 1
  rw [one_mul] at h
  rw [Nat.add_comm m n]
  exact h.symm

theorem innerFold_append (i : Nat) (j2 : Nat → Nat) :
    ∀ (l1 l2 : List Nat) (best : Nat × Nat × Nat),
      innerFold i j2 (l1 ++ l2) best = innerFold i j2 l2 (innerFold i j2 l1 best) := by
  intro l1
  induction l1 with
  | nil => intro l2 best; rfl
  | cons j js ih =>
    intro l2 best
    rw [List.cons_append, innerFold, innerFold]
    exact ih l2 _

theorem innerFold_no_update (i : Nat) (j2 : Nat → Nat) :
    ∀ (js : List Nat) (best : Nat × Nat × Nat),
      (∀ j ∈ js, runLen j2 j ≤ best.2.2) → innerFold i j2 js best = best := by
  intro js
  induction js with
  | nil => intro best _; rfl
  | cons j js ih =>
    intro best h
    rw [innerFold]
    have hj := h j (List.mem_cons_self _ _)
    rw [if_neg (by omega)]
    exact ih best (fun j' hj' => h j' (List.mem_cons_of_mem _ hj'))

/-- Membership of the diagonal index in its own row's b2j bucket. -/
theorem self_mem_jsFor (a : List Char) {i : Nat} (hi : i < a.length) :
    i ∈ jsFor a 0 a.length (a.getD i cNul) := by
  rw [jsFor, List.mem_filter]
  constructor
  · rw [List.mem_range']
    exact ⟨i, by omega, by omega⟩
  · simp

/-- On identical inputs over the full range, the DP row fold ends with best
block `(0, 0, |a|)`: processing row `i` the diagonal entry has run length
`i + 1`, beating every other column, which is bounded by `min i j + 1`. -/
theorem rowsFold_self (a : List Char) :
    ∀ (cnt i : Nat) (j2 : Nat → Nat),
      i + cnt = a.length →
      (∀ j, j2 j ≤ min i (j + 1)) →
      (0 < i → j2 (i - 1) = i) →
      (rowsFold a a 0 a.length (List.range' i cnt) (j2, (0, 0, i))).2 = (0, 0, a.length) := by
  intro cnt
  induction cnt with
  | zero =>
    intro i j2 hc _ _
    have hi : i = a.length := by omega
    subst hi
    rfl
  | succ n ih =>
    intro i j2 hc hbound hdiag
    have hi : i < a.length := by omega
    have hr : List.range' i (n + 1) = i :: List.range' (i + 1) n := rfl
    rw [hr, rowsFold]
    dsimp only
    have hrun_i : runLen j2 i = i + 1 := by
      rw [runLen]
      by_cases h0 : i = 0
      · subst h0
        rw [if_pos rfl]
      · rw [if_neg h0, hdiag (by omega)]
    have hsplit : jsFor a 0 a.length (a.getD i cNul) =
        (List.range' 0 i).filter (fun j => decide (a.getD j cNul = a.getD i cNul)) ++
          i :: (List.range' (i + 1) (a.length - i - 1)).filter
            (fun j => decide (a.getD j cNul = a.getD i cNul)) := by
      rw [jsFor, Nat.sub_zero]
      have h1 : a.length = i + (1 + (a.length - i - 1)) := by omega
      rw [h1, range'_split 0 i (1 + (a.length - i - 1)), Nat.zero_add,
        range'_split i 1 (a.length - i - 1), List.filter_append, List.filter_append]
      have h2 : List.range' i 1 = [i] := rfl
      rw [h2]
      have h3 : List.filter (fun j => decide (a.getD j cNul = a.getD i cNul)) [i] = [i] := by
        simp
      rw [h3]
      have h4 : i + 1 = i + 1 := rfl
      simp
    have hinner : innerFold i j2 (jsFor a 0 a.length (a.getD i cNul)) (0, 0, i) =
        (0, 0, i + 1) := by
      rw [hsplit, innerFold_append]
      have hleft : innerFold i j2
          ((List.range' 0 i).filter (fun j => decide (a.getD j cNul = a.getD i cNul)))
          (0, 0, i) = (0, 0, i) := by
        apply innerFold_no_update
        intro j hj
        have hjlt : j < i := by
          have := (List.mem_filter.mp hj).1
          rw [List.mem_range'] at this
          obtain ⟨k, hk, rfl⟩ := this
          omega
        rw [runLen]
        by_cases h0 : j = 0
        · rw [if_pos h0]
          dsimp only
          omega
        · rw [if_neg h0]
          have := hbound (j - 1)
          dsimp only
          omega
      rw [hleft, innerFold]
      rw [hrun_i]
      have hlt : (0, 0, i).2.2 < i + 1 := by dsimp only; omega
      rw [if_pos hlt]
      have heq : (i + 1 - (i + 1), i + 1 - (i + 1), i + 1) = ((0 : Nat), (0 : Nat), i + 1) := by
        simp
      rw [heq]
      apply innerFold_no_update
      intro j hj
      have hjgt : i + 1 ≤ j := by
        have := (List.mem_filter.mp hj).1
        rw [List.mem_range'] at this
        obtain ⟨k, hk, rfl⟩ := this
        omega
      rw [runLen, if_neg (by omega)]
      have := hbound (j - 1)
      dsimp only
      omega
    rw [hinner]
    apply ih (i + 1)
    · omega
    · intro j
      rw [newJ2len]
      by_cases hmem : j ∈ jsFor a 0 a.length (a.getD i cNul)
      · rw [if_pos hmem]
        rw [runLen]
        by_cases h0 : j = 0
        · rw [if_pos h0]
          omega
        · rw [if_neg h0]
          have := hbound (j - 1)
          omega
      · rw [if_neg hmem]
        omega
    · intro _
      have h1 : i + 1 - 1 = i := by omega
      rw [h1, newJ2len, if_pos (self_mem_jsFor a hi), hrun_i]

theorem findLongestMatch_self (a : List Char) :
    findLongestMatch a a 0 a.length 0 a.length = (0, 0, a.length) := by
  have hdp : (rowsFold a a 0 a.length (List.range' 0 (a.length - 0))
      ((fun _ => 0), (0, 0, 0))).2 = (0, 0, a.length) := by
    rw [Nat.sub_zero]
    exact rowsFold_self a a.length 0 (fun _ => 0) (by omega) (fun j => by simp)
      (fun h => absurd h (lt_irrefl 0))
  simp only [findLongestMatch]
  rw [hdp]
  have hback : extendBack a a 0 0 (0, 0, a.length).1 (0, 0, a.length) = (0, 0, a.length) := rfl
  rw [hback]
  have hfwd : a.length - ((0, 0, a.length).1 + (0, 0, a.length).2.2) = 0 := by
    dsimp only
    omega
  rw [hfwd]
  rfl

/-- A `while` loop that fails its guard immediately returns its input,
whatever the fuel. -/
theorem extendBack_stop (a b : List Char) (alo blo fuel i j k : Nat)
    (h : ¬(alo < i ∧ blo < j ∧ a.getD (i - 1) cNul = b.getD (j - 1) cNul)) :
    extendBack a b alo blo fuel (i, j, k) = (i, j, k) := by
  cases fuel with
  | zero => rfl
  | succ n => rw [extendBack, if_neg h]

theorem extendFwd_stop (a b : List Char) (ahi bhi fuel i j k : Nat)
    (h : ¬(i + k < ahi ∧ j + k < bhi ∧ a.getD (i + k) cNul = b.getD (j + k) cNul)) :
    extendFwd a b ahi bhi fuel (i, j, k) = (i, j, k) := by
  cases fuel with
  | zero => rfl
  | succ n => rw [extendFwd, if_neg h]

/-- On an empty `a`-range `find_longest_match` returns the empty block. -/
theorem findLongestMatch_empty_rows (a b : List Char) (alo blo bhi : Nat) :
    findLongestMatch a b alo alo blo bhi = (alo, blo, 0) := by
  simp only [findLongestMatch, Nat.sub_self]
  have hr : List.range' alo 0 = [] := rfl
  rw [hr]
  have hdp : (rowsFold a b blo bhi [] ((fun _ => 0), (alo, blo, 0))).2 = (alo, blo, 0) := rfl
  rw [hdp]
  rw [extendBack_stop a b alo blo _ alo blo 0 (fun hcon => absurd hcon.1 (lt_irrefl _))]
  exact extendFwd_stop a b alo bhi _ alo blo 0
    (fun hcon => absurd hcon.1 (by omega))

theorem matchesTotalFuel_empty_rows (a b : List Char) (fuel alo blo bhi : Nat) :
    matchesTotalFuel a b fuel alo alo blo bhi = 0 := by
  cases fuel with
  | zero => rfl
  | succ n =>
    rw [matchesTotalFuel, findLongestMatch_empty_rows]
    rfl

theorem matchesTotal_self (a : List Char) : matchesTotal a a = a.length := by
  rw [matchesTotal, matchesTotalFuel, findLongestMatch_self]
  by_cases h0 : a.length = 0
  · rw [if_pos (by dsimp only; omega)]
    omega
  · rw [if_neg (by dsimp only; omega)]
    dsimp only
    rw [matchesTotalFuel_empty_rows]
    have h1 : 0 + a.length = a.length := by omega
    rw [h1, matchesTotalFuel_empty_rows]
    omega

theorem ratioQ_self (a : List Char) (h : a ≠ []) : ratioQ a a = 1 := by
  have hl : 0 < a.length := List.length_pos.mpr h
  rw [ratioQ, matchesTotal_self, if_neg (by omega)]
  have hne : ((a.length : ℚ) + (a.length : ℚ)) ≠ 0 := by
    have : (0 : ℚ) < (a.length : ℚ) := by exact_mod_cast hl
    linarith
  rw [div_eq_one_iff_eq hne]
  ring

/-! ## The scorer on a self-pair -/

theorem lowerChars_ne_nil {x : String} (h : x ≠ "") : lowerChars x ≠ [] := by
  intro hnil
  rw [lowerChars, List.map_eq_nil_iff] at hnil
  exact h (String.ext (hnil.trans rfl))

/-- C7: for every non-empty string whose tokenisation (lower-casing,
punctuation stripping, stop-word removal) yields at least one token,
`SimilarityScorer(x, x) = 1`: the Jaccard of the non-empty token set with
itself is 1, and the fuzzy and sequence ratios of identical strings are 1. -/
theorem C7_self_similarity (x : String) (h1 : x ≠ "") (h2 : scorerTokens x ≠ []) :
    calculate_semantic_similarity x x = 1 := by
  rw [calculate_semantic_similarity, if_neg (by simp [h1])]
  dsimp only
  have hinter : (scorerTokens x).filter (fun w => decide (w ∈ scorerTokens x)) =
      scorerTokens x :=
    List.filter_eq_self.mpr (fun a ha => by simpa using ha)
  have hunion : (scorerTokens x).filter (fun w => decide (w ∉ scorerTokens x)) = [] :=
    List.filter_eq_nil_iff.mpr (fun a ha => by simpa using ha)
  rw [if_neg (by simp [h2]), hinter, hunion, List.append_nil, ratioQ_self _ (lowerChars_ne_nil h1)]
  have hlen : (0 : ℚ) < ((scorerTokens x).length : ℚ) := by
    exact_mod_cast List.length_pos.mpr h2
  have hjac : ((scorerTokens x).length : ℚ) / ((scorerTokens x).length : ℚ) = 1 :=
    div_self (by linarith)
  rw [hjac]
  norm_num [pyRound]

/-- Witness for C7 at `x = "fever"`: a non-empty string with the non-stop
token `fever`, scoring 1 against itself. -/
theorem C7_witness : calculate_semantic_similarity "fever" "fever" = 1 :=
  C7_self_similarity "fever" (by decide) (by decide)

/-! ## Lookup failure degrades to empty results (C6) -/

/-- Every call to the external lookup fails, in either of the two ways
`who_api_search` absorbs into an empty result list: a transport or auth
failure (a timeout / `RequestException` caught at lines 284-286, or the
missing-token early `return []` of lines 254-255), or a reply whose HTTP
status is not 200 (lines 281-283). -/
def AlwaysFails (api : String → Option String → LookupOutcome) : Prop :=
  ∀ q cf, api q cf = LookupOutcome.failure ∨
    ∃ s ents, api q cf = LookupOutcome.http s ents ∧ s ≠ 200

theorem who_api_search_fail {api : String → Option String → LookupOutcome}
    (hfail : AlwaysFails api) (q : String) (cf : Option String) (limit : Nat) :
    who_api_search api q cf limit = [] := by
  rw [who_api_search]
  rcases hfail q cf with h | ⟨s, ents, h, hs⟩
  · rw [h]
  · rw [h]
    dsimp only
    rw [if_neg hs]

theorem flatMap_nil_of {α β : Type} (l : List α) (f : α → List β) (h : ∀ x, f x = []) :
    l.flatMap f = [] := by
  induction l with
  | nil => rfl
  | cons x xs ih => rw [List.flatMap_cons, h, ih, List.nil_append]

theorem engineAllCandidates_fail {api : String → Option String → LookupOutcome}
    (hfail : AlwaysFails api) (stem : Option (String → String))
    (term defn : String) :
    engineAllCandidates api stem term defn = [] := by
  have h1 : strategy_direct_term api stem term = [] := by
    rw [strategy_direct_term]
    apply flatMap_nil_of
    intro t
    split
    · rw [who_api_search_fail hfail]
      rfl
    · rfl
  have h2 : strategy_definition_extraction api defn = [] := by
    rw [strategy_definition_extraction]
    apply flatMap_nil_of
    intro t
    split
    · rw [who_api_search_fail hfail]
      rfl
    · rfl
  have h3 : strategy_tm2_chapter api term defn = [] := by
    rw [strategy_tm2_chapter]
    apply flatMap_nil_of
    intro t
    split
    · rw [who_api_search_fail hfail]
      rfl
    · rfl
  have h4 : strategy_symptom_based api defn = [] := by
    rw [strategy_symptom_based]
    apply flatMap_nil_of
    intro t
    split
    · rw [who_api_search_fail hfail]
      rfl
    · rfl
  rw [engineAllCandidates, h1, h2, h3, h4]
  rfl

/-- C6: if every call to the external lookup fails — a timeout or auth
failure (`failure`), or a non-200 HTTP response (`http s ents` with
`s ≠ 200`) — each lookup call contributes zero candidates without aborting
the remaining strategies, the engine returns no candidates, and `map` still
returns a normal response with `success = false` and `candidates = []`.
The embedding is total, so no exception escapes. -/
theorem C6_lookup_failure_degrades (api : String → Option String → LookupOutcome)
    (hfail : AlwaysFails api) :
    (∀ (q : String) (cf : Option String) (limit : Nat), who_api_search api q cf limit = []) ∧
      (∀ (stem : Option (String → String)) (code term defn : String),
        dynamic_mapping_engine api stem code term defn = []) ∧
      (∀ (data : List (String × List SourceRecord)) (stem : Option (String → String))
          (code sys : String) (rec : SourceRecord),
        code ≠ "" → findSource data code = some (sys, rec) →
        map_namaste_to_icd data api stem (some code) = .ok sys rec [] 0 false) := by
  refine ⟨who_api_search_fail hfail, ?_, ?_⟩
  · intro stem code term defn
    rw [dynamic_mapping_engine, engineAllCandidates_fail hfail]
    rfl
  · intro data stem code sys rec hne hfind
    rw [map_namaste_to_icd]
    dsimp only
    rw [if_neg hne, hfind]
    dsimp only
    rw [dynamic_mapping_engine, engineAllCandidates_fail hfail]
    rfl

/-- Witness for C6 on the flu record, under both all-failing stubs: one
raising a timeout on every call and one answering HTTP 500 on every call. -/
theorem C6_witness :
    (who_api_search failApi "flu" none 5 = [] ∧
        dynamic_mapping_engine failApi none "NAM1" "flu" "flu" = [] ∧
        map_namaste_to_icd fluData failApi none (some "NAM1") =
          .ok "Ayurveda" fluRecord [] 0 false) ∧
      (who_api_search http500Api "flu" none 5 = [] ∧
        dynamic_mapping_engine http500Api none "NAM1" "flu" "flu" = [] ∧
        map_namaste_to_icd fluData http500Api none (some "NAM1") =
          .ok "Ayurveda" fluRecord [] 0 false) := by
  have h1 := C6_lookup_failure_degrades failApi (fun q cf => Or.inl rfl)
  have h2 := C6_lookup_failure_degrades http500Api
    (fun q cf => Or.inr ⟨500, [], rfl, by decide⟩)
  exact ⟨⟨h1.1 "flu" none 5, h1.2.1 none "NAM1" "flu" "flu",
      h1.2.2 fluData none "NAM1" "Ayurveda" fluRecord (by decide) (by decide)⟩,
    ⟨h2.1 "flu" none 5, h2.2.1 none "NAM1" "flu" "flu",
      h2.2.2 fluData none "NAM1" "Ayurveda" fluRecord (by decide) (by decide)⟩⟩

/-! ## Unknown code short-circuits to 404 (C10) -/

theorem findSource_eq_none (data : List (String × List SourceRecord)) (code : String)
    (h : ∀ sys recs, (sys, recs) ∈ data → ∀ r ∈ recs, r.code ≠ code) :
    findSource data code = none := by
  induction data with
  | nil => rfl
  | cons p rest ih =>
    obtain ⟨sys, recs⟩ := p
    rw [findSource]
    have hf : recs.find? (fun item => decide (item.code = code)) = none := by
      rw [List.find?_eq_none]
      intro r hr
      simp [h sys recs (List.mem_cons_self _ _) r hr]
    rw [hf]
    exact ih (fun s rs hm => h s rs (List.mem_cons_of_mem _ hm))

/-- C10: a `/map-code` request whose (non-empty) code occurs in no loaded
NAMASTE system gets the 404 `notFound` response, computed before the engine
or the external lookup is consulted: the response is one fixed value,
independent of the lookup collaborator and the stemmer. -/
theorem C10_unknown_code_is_404 (data : List (String × List SourceRecord)) (code : String)
    (hne : code ≠ "")
    (h : ∀ sys recs, (sys, recs) ∈ data → ∀ r ∈ recs, r.code ≠ code) :
    ∀ (api api' : String → Option String → LookupOutcome)
      (stem stem' : Option (String → String)),
      map_namaste_to_icd data api stem (some code) =
          .notFound ("Code " ++ code ++ " not found in any NAMASTE system.") ∧
        map_namaste_to_icd data api stem (some code) =
          map_namaste_to_icd data api' stem' (some code) := by
  intro api api' stem stem'
  have hfind := findSource_eq_none data code h
  have hval : ∀ (api'' : String → Option String → LookupOutcome)
      (stem'' : Option (String → String)),
      map_namaste_to_icd data api'' stem'' (some code) =
        .notFound ("Code " ++ code ++ " not found in any NAMASTE system.") := by
    intro api'' stem''
    rw [map_namaste_to_icd]
    dsimp only
    rw [if_neg hne, hfind]
  exact ⟨hval api stem, (hval api stem).trans (hval api' stem').symm⟩

/-- Witness for C10: code `ZZZ` is absent from the loaded data, two different
lookup/stemmer pairs give the same 404 response. -/
theorem C10_witness :
    map_namaste_to_icd fluData failApi none (some "ZZZ") =
        .notFound ("Code " ++ "ZZZ" ++ " not found in any NAMASTE system.") ∧
      map_namaste_to_icd fluData failApi none (some "ZZZ") =
        map_namaste_to_icd fluData fluApi (some id) (some "ZZZ") :=
  C10_unknown_code_is_404 fluData "ZZZ" (by decide)
    (by
      intro sys recs hm r hr
      simp only [fluData, List.mem_singleton] at hm
      cases hm
      rw [List.mem_singleton] at hr
      cases hr
      decide)
    failApi fluApi none (some id)

/-! ## A blank SourceConcept does not raise: it degrades to an empty result
(C4, corrected) -/

/-- With `term = ""` and `definition = ""` no strategy ever queries the
lookup (every candidate query fails the `len(term.strip()) > 2` guard or is
generated from the empty extraction), so the engine returns `[]` for every
lookup behaviour. -/
theorem engine_blank (api : String → Option String → LookupOutcome) (code : String) :
    dynamic_mapping_engine api none code "" "" = [] := rfl

/-- C4 (amended): for a found record with blank term and definition,
`map` does NOT fail — there is no `NotFoundError` anywhere in the code; it
returns the normal 200 response with `candidates = []` and
`success = false`. -/
theorem C4_blank_input_returns_empty (data : List (String × List SourceRecord))
    (api : String → Option String → LookupOutcome) (code sys : String) (rec : SourceRecord)
    (hne : code ≠ "") (hfind : findSource data code = some (sys, rec))
    (hterm : rec.term = "") (hdefn : rec.definition = "") :
    map_namaste_to_icd data api none (some code) = .ok sys rec [] 0 false := by
  rw [map_namaste_to_icd]
  dsimp only
  rw [if_neg hne, hfind]
  dsimp only
  rw [hterm, hdefn, engine_blank]
  rfl

/-- A loaded record with blank term and definition. -/
def blankRecord : SourceRecord := ⟨"NAM2", "", ""⟩

def blankData : List (String × List SourceRecord) := [("Ayurveda", [blankRecord])]

/-- C4 counterexample: the blank-concept request completes with a normal
(HTTP 200) response — `candidates = []`, `success = false` — rather than
failing with a `NotFoundError` (which does not exist in the code: the only
error responses of `/map-code` are the 400 for a missing code and the 404
for an unknown code). -/
theorem C4_counterexample :
    map_namaste_to_icd blankData failApi none (some "NAM2") =
      .ok "Ayurveda" blankRecord [] 0 false := rfl

/-- Witness for C4 (amended) at the blank record. -/
theorem C4_witness :
    map_namaste_to_icd blankData failApi none (some "NAM2") =
      .ok "Ayurveda" blankRecord [] 0 false :=
  C4_blank_input_returns_empty blankData failApi "NAM2" "Ayurveda" blankRecord
    (by decide) (by decide) rfl rfl

/-! ## `total_candidates_found` counts the final list, not the pre-dedup
pool (C5, corrected) -/

/-- C5 (amended): the `total_candidates_found` field equals the length of
the returned candidate list — the count AFTER deduplication and truncation
to 5 (`len(mapped_results)` at line 510), not the number of candidates
collected across strategies before deduplication. -/
theorem C5_total_is_final_count (data : List (String × List SourceRecord))
    (api : String → Option String → LookupOutcome) (stem : Option (String → String))
    (code sys : String) (rec : SourceRecord)
    (hne : code ≠ "") (hfind : findSource data code = some (sys, rec)) :
    map_namaste_to_icd data api stem (some code) =
      .ok sys rec (dynamic_mapping_engine api stem code rec.term rec.definition)
        (dynamic_mapping_engine api stem code rec.term rec.definition).length
        (!(dynamic_mapping_engine api stem code rec.term rec.definition).isEmpty) := by
  rw [map_namaste_to_icd]
  dsimp only
  rw [if_neg hne, hfind]

/-- C5 counterexample: on the flu fixture the strategies collect 3 candidates
before deduplication, but the response reports `total_candidates_found = 1`
(the deduplicated, truncated list) — refuting the claim that the field is the
pre-deduplication count. -/
theorem C5_counterexample :
    (engineAllCandidates fluApi none "flu" "flu").length = 3 ∧
      map_namaste_to_icd fluData fluApi none (some "NAM1") =
        .ok "Ayurveda" fluRecord [cFluDirect] 1 true ∧
      (1 : Nat) ≠ 3 := by
  refine ⟨?_, map_flu, by decide⟩
  rw [engineAllCandidates_flu]
  rfl

/-- Witness for C5 (amended) at the flu fixture. -/
theorem C5_witness :
    map_namaste_to_icd fluData fluApi none (some "NAM1") =
      .ok "Ayurveda" fluRecord (dynamic_mapping_engine fluApi none "NAM1" "flu" "flu")
        (dynamic_mapping_engine fluApi none "NAM1" "flu" "flu").length
        (!(dynamic_mapping_engine fluApi none "NAM1" "flu" "flu").isEmpty) :=
  C5_total_is_final_count fluData fluApi none "NAM1" "Ayurveda" fluRecord
    (by decide) (by decide)

end SIH
